import Mathlib

/-!
Verification of the wiki_bot template-rewrite / tag-removal text engine.

Strings are modelled as `List Char`.  Python's `str.lower()` is modelled on
the ASCII range (all inputs of interest are ASCII), `str.strip()` uses the
ASCII whitespace set of Python's `str.strip` / `\s`.  Regular expressions in
the source are fixed, concrete patterns; each one is embedded as a dedicated
deterministic scanner.  The greedy `\s*` / `[^\}]*` / `\d+` pieces of those
patterns are modelled by maximal munch, which coincides with Python's
backtracking semantics because each repeated class is disjoint from the
token that follows it.
-/

/-- Python ASCII whitespace, the character class of `\s` and `str.strip()`. -/
def isSpacePy (c : Char) : Bool :=
  c = ' ' || c = '\t' || c = '\n' || c = '\r' || c = '\x0b' || c = '\x0c'

/-- ASCII digit test, the character class of `\d`. -/
def isDigitPy (c : Char) : Bool :=
  48 ≤ c.toNat && c.toNat ≤ 57

/-- ASCII model of Python's `str.lower()`, applied characterwise. -/
def lowerChar (c : Char) : Char :=
  if 65 ≤ c.toNat ∧ c.toNat ≤ 90 then Char.ofNat (c.toNat + 32) else c

/-- `str.strip()`: drop whitespace from both ends. -/
def stripB (s : List Char) : List Char :=
  ((s.dropWhile isSpacePy).reverse.dropWhile isSpacePy).reverse

/-- Characterwise model of `str.replace('_', ' ')`. -/
def underscoreToSpace (c : Char) : Char :=
  if c = '_' then ' ' else c

/-- `normalize_template_name` from replace_templates.py: drop everything up to
and including the first `:` when one is present, then strip, lower, and turn
underscores into spaces. -/
def normalize_template_name (name : List Char) : List Char :=
  let n := if ':' ∈ name then (name.dropWhile (fun c => ¬ (c = ':'))).tail else name
  ((stripB n).map lowerChar).map underscoreToSpace

theorem toNat_ofNat_small (n : Nat) (h : n < 1000) : (Char.ofNat n).toNat = n := by
  have hv : n.isValidChar := Or.inl (by omega)
  simp [Char.ofNat, hv, Char.ofNatAux, Char.toNat, UInt32.toNat, BitVec.toNat_ofNatLt]

theorem lowerChar_idem (c : Char) : lowerChar (lowerChar c) = lowerChar c := by
  unfold lowerChar
  by_cases h : 65 ≤ c.toNat ∧ c.toNat ≤ 90
  · rw [if_pos h]
    have h2 : (Char.ofNat (c.toNat + 32)).toNat = c.toNat + 32 :=
      toNat_ofNat_small _ (by omega)
    rw [if_neg (by omega)]
  · rw [if_neg h, if_neg h]

theorem lowerChar_space : lowerChar ' ' = ' ' := by decide

theorem underscore_lower_point (c : Char) :
    underscoreToSpace (lowerChar (underscoreToSpace (lowerChar c))) =
      underscoreToSpace (lowerChar c) := by
  by_cases h : lowerChar c = '_'
  · have e1 : underscoreToSpace (lowerChar c) = ' ' := by rw [h]; decide
    rw [e1]; decide
  · have e1 : underscoreToSpace (lowerChar c) = lowerChar c := by
      rw [underscoreToSpace, if_neg h]
    rw [e1, lowerChar_idem, e1]

theorem underscore_lower_map (l : List Char) :
    List.map underscoreToSpace (List.map lowerChar
        (List.map underscoreToSpace (List.map lowerChar l))) =
      List.map underscoreToSpace (List.map lowerChar l) := by
  induction l with
  | nil => rfl
  | cons c t ih => simp only [List.map_cons]; rw [underscore_lower_point c, ih]

/-- C6 counterexample input: normalization of `"_a"` yields `" a"`, whose
normalization strips the space again. -/
theorem normalize_not_idem :
    ¬ (normalize_template_name (normalize_template_name ['_', 'a']) =
        normalize_template_name ['_', 'a']) := by decide

/-- C6 (amended): normalization is idempotent on every string whose normal
form contains no colon and carries no surrounding whitespace. -/
theorem normalize_idem_of_clean (x : List Char)
    (h1 : ¬ (':' ∈ normalize_template_name x))
    (h2 : stripB (normalize_template_name x) = normalize_template_name x) :
    normalize_template_name (normalize_template_name x) =
      normalize_template_name x := by
  conv_lhs => rw [normalize_template_name]
  rw [if_neg h1, h2]
  rw [normalize_template_name]
  exact underscore_lower_map _

/-- C6 amended witness: a clean name, idempotence holds there. -/
theorem normalize_idem_witness :
    (¬ (':' ∈ normalize_template_name ['C', 'a', 't'])) ∧
      stripB (normalize_template_name ['C', 'a', 't']) =
        normalize_template_name ['C', 'a', 't'] ∧
      normalize_template_name (normalize_template_name ['C', 'a', 't']) =
        normalize_template_name ['C', 'a', 't'] :=
  ⟨by decide, by decide, normalize_idem_of_clean ['C', 'a', 't'] (by decide) (by decide)⟩

/-!
## String constants

Names and message literals from config.py / replace_templates.py, written as
character lists.
-/

def nCatDiffuse : List Char :=
  ['C', 'a', 't', 'D', 'i', 'f', 'f', 'u', 's', 'e']

def nCatdiffuse : List Char :=
  ['C', 'a', 't', 'd', 'i', 'f', 'f', 'u', 's', 'e']

def nCatSpaceDiffuse : List Char :=
  ['C', 'a', 't', ' ', 'd', 'i', 'f', 'f', 'u', 's', 'e']

def nCatUnderscoreDiffuse : List Char :=
  ['C', 'a', 't', '_', 'd', 'i', 'f', 'f', 'u', 's', 'e']

def nTargetName : List Char :=
  ['D', 'i', 'f', 'f', 'u', 's', 'i', 'o', 'n', ' ', 'b', 'y', ' ',
   'c', 'o', 'n', 'd', 'i', 't', 'i', 'o', 'n']

def sNoMatch : List Char :=
  ['N', 'o', ' ', 's', 'o', 'u', 'r', 'c', 'e', ' ', 't', 'e', 'm', 'p',
   'l', 'a', 't', 'e', 's', ' ', 'f', 'o', 'u', 'n', 'd']

def sRedundant : List Char :=
  ['R', 'e', 'm', 'o', 'v', 'e', 'd', ' ', 'r', 'e', 'd', 'u', 'n', 'd',
   'a', 'n', 't', ' ', 's', 'o', 'u', 'r', 'c', 'e', ' ', 't', 'e', 'm',
   'p', 'l', 'a', 't', 'e', 's', ' ', '(', 't', 'a', 'r', 'g', 'e', 't',
   ' ', 'a', 'l', 'r', 'e', 'a', 'd', 'y', ' ', 'e', 'x', 'i', 's', 't',
   's', ')']

def sReplacedPre : List Char :=
  ['R', 'e', 'p', 'l', 'a', 'c', 'e', 'd', ' ']

def sWithMid : List Char :=
  [' ', 'w', 'i', 't', 'h', ' ']

def sAndRemoved : List Char :=
  [' ', 'a', 'n', 'd', ' ', 'r', 'e', 'm', 'o', 'v', 'e', 'd', ' ']

def sDuplicates : List Char :=
  [' ', 'd', 'u', 'p', 'l', 'i', 'c', 'a', 't', 'e', '(', 's', ')']

def sLimitWord : List Char :=
  ['l', 'i', 'm', 'i', 't']

/-!
## Template invocation scanning

Embeds the three regex patterns of replace_templates.py:
source pattern  r'\{\{\s*' + escape(source) + r'\s*(\|[^\}]*)?\}\}'
target pattern  r'\{\{\s*' + escape(target) + r'\s*[\|\}]'
both compiled with re.IGNORECASE, the literal name matched characterwise.
-/

/-- Match a literal name case-insensitively at the head, returning the text
as written together with the remaining input. -/
def stripPrefixCI : List Char → List Char → Option (List Char × List Char)
  | [], s => some ([], s)
  | _ :: _, [] => none
  | n :: ns, c :: cs =>
    if lowerChar n = lowerChar c then
      (stripPrefixCI ns cs).map (fun p => (c :: p.1, p.2))
    else
      none

/-- Try the source-template pattern at the start of `s`; on success return
the matched substring (re group 0) and the rest of the input. -/
def matchTemplateAt (name : List Char) (s : List Char) :
    Option (List Char × List Char) :=
  match s with
  | '{' :: '{' :: s1 =>
    let ws1 := s1.takeWhile isSpacePy
    let r1 := s1.dropWhile isSpacePy
    match stripPrefixCI name r1 with
    | none => none
    | some (nm, r2) =>
      let ws2 := r2.takeWhile isSpacePy
      let r3 := r2.dropWhile isSpacePy
      match r3 with
      | '|' :: r4 =>
        let args := r4.takeWhile (fun c => ¬ (c = '}'))
        let r5 := r4.dropWhile (fun c => ¬ (c = '}'))
        match r5 with
        | '}' :: '}' :: r6 =>
          some ('{' :: '{' :: (ws1 ++ nm ++ ws2 ++ '|' :: args ++ ['}', '}']), r6)
        | _ => none
      | '}' :: '}' :: r6 =>
        some ('{' :: '{' :: (ws1 ++ nm ++ ws2 ++ ['}', '}']), r6)
      | _ => none
  | _ => none

/-- `re.finditer` on the source pattern: scan left to right, emit
non-overlapping matches as (start position, matched substring).  The fuel
argument bounds the number of scan steps; `text.length + 1` always
suffices because every step either consumes input or stops. -/
def findMatchesF (name : List Char) : Nat → List Char → Nat →
    List (Nat × List Char)
  | 0, _, _ => []
  | fuel + 1, s, pos =>
    match matchTemplateAt name s with
    | some (m, rest) => (pos, m) :: findMatchesF name fuel rest (pos + m.length)
    | none =>
      match s with
      | [] => []
      | _ :: t => findMatchesF name fuel t (pos + 1)

/-- A located source-template occurrence: which configured name matched,
where it starts, and the matched substring (match.group(0)). -/
structure SrcMatch where
  source : List Char
  start : Nat
  matched : List Char
deriving DecidableEq, Repr

/-- `match.end()`. -/
def mEnd (m : SrcMatch) : Nat := m.start + m.matched.length

/-- The `source_found` list of replace_templates: per-source finditer
results, concatenated in source-list order. -/
def sourceFound (text : List Char) (source_templates : List (List Char)) :
    List SrcMatch :=
  (source_templates.map (fun s =>
    (findMatchesF s (text.length + 1) text 0).map
      (fun pm => SrcMatch.mk s pm.1 pm.2))).flatten

/-- `source_found.sort(key=lambda x: x[1].start())`: a stable ascending
sort by start position (insertion sort, equal keys keep list order). -/
def insertByStart (m : SrcMatch) : List SrcMatch → List SrcMatch
  | [] => [m]
  | b :: t => if m.start ≤ b.start then m :: b :: t else b :: insertByStart m t

def sortByStart : List SrcMatch → List SrcMatch
  | [] => []
  | m :: t => insertByStart m (sortByStart t)

/-- Try the target pattern `\{\{\s*target\s*[\|\}]` at the start of `s`. -/
def matchTargetAt (target : List Char) (s : List Char) : Bool :=
  match s with
  | '{' :: '{' :: s1 =>
    match stripPrefixCI target (s1.dropWhile isSpacePy) with
    | none => false
    | some (_, r2) =>
      match r2.dropWhile isSpacePy with
      | '|' :: _ => true
      | '}' :: _ => true
      | _ => false
  | _ => false

def hasTargetScan (target : List Char) : List Char → Bool
  | [] => false
  | c :: t => matchTargetAt target (c :: t) || hasTargetScan target t

/-- `has_target_template` from replace_templates.py. -/
def has_target_template (text : List Char) (target : List Char) : Bool :=
  hasTargetScan target text

/-!
## Limit extraction
-/

def digitsVal (ds : List Char) : Nat :=
  ds.foldl (fun a c => 10 * a + (c.toNat - 48)) 0

/-- Try pattern `\{\{\s*name\s*\|\s*(\d+)\s*\}\}` at the start of `s`. -/
def pat1At (name : List Char) (s : List Char) : Option Nat :=
  match s with
  | '{' :: '{' :: s1 =>
    match stripPrefixCI name (s1.dropWhile isSpacePy) with
    | none => none
    | some (_, r2) =>
      match r2.dropWhile isSpacePy with
      | '|' :: r4 =>
        let r5 := r4.dropWhile isSpacePy
        let ds := r5.takeWhile isDigitPy
        let r6 := r5.dropWhile isDigitPy
        if ds = [] then none
        else
          match r6.dropWhile isSpacePy with
          | '}' :: '}' :: _ => some (digitsVal ds)
          | _ => none
      | _ => none
  | _ => none

def searchPat1 (name : List Char) : List Char → Option Nat
  | [] => none
  | c :: t =>
    match pat1At name (c :: t) with
    | some v => some v
    | none => searchPat1 name t

/-- Try pattern `\{\{\s*name\s*\|\s*limit\s*=\s*(\d+)` at the start of `s`. -/
def pat2At (name : List Char) (s : List Char) : Option Nat :=
  match s with
  | '{' :: '{' :: s1 =>
    match stripPrefixCI name (s1.dropWhile isSpacePy) with
    | none => none
    | some (_, r2) =>
      match r2.dropWhile isSpacePy with
      | '|' :: r4 =>
        match stripPrefixCI sLimitWord (r4.dropWhile isSpacePy) with
        | none => none
        | some (_, r5) =>
          match r5.dropWhile isSpacePy with
          | '=' :: r6 =>
            let ds := (r6.dropWhile isSpacePy).takeWhile isDigitPy
            if ds = [] then none else some (digitsVal ds)
          | _ => none
      | _ => none
  | _ => none

def searchPat2 (name : List Char) : List Char → Option Nat
  | [] => none
  | c :: t =>
    match pat2At name (c :: t) with
    | some v => some v
    | none => searchPat2 name t

/-- `extract_limit_from_template`: first positional-number pattern, then
the `limit=` keyword pattern. -/
def extract_limit_from_template (text : List Char) (template_name : List Char) :
    Option Nat :=
  match searchPat1 template_name text with
  | some v => some v
  | none => searchPat2 template_name text

/-- `limit = custom_limit if custom_limit else default_limit`: a zero
override is falsy in Python and falls back to the default. -/
def appliedLimit (first : SrcMatch) (default_limit : Nat) : Nat :=
  match extract_limit_from_template first.matched first.source with
  | some n => if n = 0 then default_limit else n
  | none => default_limit

/-!
## Decimal rendering and post-edit cleanup
-/

def natToStrAux : Nat → Nat → List Char → List Char
  | 0, _, acc => acc
  | fuel + 1, n, acc =>
    if n < 10 then Nat.digitChar n :: acc
    else natToStrAux fuel (n / 10) (Nat.digitChar (n % 10) :: acc)

/-- Decimal rendering of a natural number, as Python's str(). -/
def natToStr (n : Nat) : List Char := natToStrAux (n + 1) n []

/-- The replacement text `f'{{{{{target_template}|{limit}}}}}'`. -/
def canonicalInvocation (target : List Char) (limit : Nat) : List Char :=
  '{' :: '{' :: (target ++ '|' :: natToStr limit ++ ['}', '}'])

def nlRun (run : Nat) : List Char :=
  if 2 ≤ run then ['\n', '\n'] else List.replicate run '\n'

def collapseNlAux : Nat → List Char → List Char
  | run, [] => nlRun run
  | run, '\n' :: t => collapseNlAux (run + 1) t
  | run, c :: t => nlRun run ++ c :: collapseNlAux 0 t

/-- `re.sub(r'\n\n+', '\n\n', text)`: every maximal newline run of length
at least two becomes exactly two newlines. -/
def collapseNl (s : List Char) : List Char := collapseNlAux 0 s

def spRun (run : Nat) : List Char :=
  if 2 ≤ run then [' '] else List.replicate run ' '

def collapseSpAux : Nat → List Char → List Char
  | run, [] => spRun run
  | run, ' ' :: t => collapseSpAux (run + 1) t
  | run, c :: t => spRun run ++ c :: collapseSpAux 0 t

/-- `re.sub(r'  +', ' ', text)`: every maximal space run of length at
least two becomes a single space. -/
def collapseSp (s : List Char) : List Char := collapseSpAux 0 s

/-!
## The rewrite engine
-/

/-- Python slice index: negative indices count from the end and clamp at 0;
`List.take`/`List.drop` already clamp large nonnegative indices. -/
def pyIdx (len : Nat) (i : Int) : Nat :=
  if i < 0 then ((len : Int) + i).toNat else i.toNat

/-- `text[:a] + text[b:]` with Python index semantics. -/
def pyCut (s : List Char) (a b : Int) : List Char :=
  s.take (pyIdx s.length a) ++ s.drop (pyIdx s.length b)

/-- One deletion `text[:match.start()] + text[match.end():]` of the
remove-redundant branch. -/
def delOne (t : List Char) (m : SrcMatch) : List Char :=
  t.take m.start ++ t.drop (mEnd m)

/-- The offset-adjusting removal loop of the replace-first branch. -/
def removeRest (firstStart : Nat) : List SrcMatch → List Char → Int → List Char
  | [], t, _ => t
  | m :: rs, t, offset =>
    let ns : Int := if (m.start : Int) > (firstStart : Int)
      then (m.start : Int) + offset else (m.start : Int)
    let ne : Int := if (mEnd m : Int) > (firstStart : Int)
      then (mEnd m : Int) + offset else (mEnd m : Int)
    removeRest firstStart rs (pyCut t ns ne) (offset - (ne - ns))

/-- Edit summary of the replace-first branch. -/
def actionReplaced (src tgt : List Char) (limit total : Nat) : List Char :=
  sReplacedPre ++ src ++ sWithMid ++ tgt ++ '|' :: natToStr limit ++
    (if 1 < total then sAndRemoved ++ natToStr (total - 1) ++ sDuplicates else [])

/-- `replace_templates` from replace_templates.py.  The inner `match sorted`
with an unreachable `[]` arm mirrors `source_found[0]` after the non-empty
check; sorting preserves length, so that arm never runs. -/
def replace_templates (text : List Char) (source_templates : List (List Char))
    (target_template : List Char) (default_limit : Nat) :
    List Char × Bool × List Char :=
  let target_exists := has_target_template text target_template
  match sourceFound text source_templates with
  | [] => (text, false, sNoMatch)
  | f :: fs =>
    let sorted := sortByStart (f :: fs)
    if target_exists then
      (collapseSp (collapseNl ((sorted.reverse).foldl delOne text)), true, sRedundant)
    else
      match sorted with
      | [] => (text, false, sNoMatch)
      | first :: rest =>
        let limit := appliedLimit first default_limit
        let repl := canonicalInvocation target_template limit
        let t0 := text.take first.start ++ repl ++ text.drop (mEnd first)
        let t1 := removeRest first.start rest t0
          ((repl.length : Int) - (first.matched.length : Int))
        (collapseNl t1, true,
          actionReplaced first.source target_template limit (fs.length + 1))

/-!
## Substring test (Python's `in` operator for strings)
-/

def startsWithL : List Char → List Char → Bool
  | [], _ => true
  | _ :: _, [] => false
  | n :: ns, c :: cs => n = c && startsWithL ns cs

def containsSub : List Char → List Char → Bool
  | hay, needle =>
    startsWithL needle hay ||
      match hay with
      | [] => false
      | _ :: t => containsSub t needle

/-!
## Concrete scenario texts
-/

/-- `"{{CatDiffuse}}"` -/
def txSingle : List Char := '{' :: '{' :: (nCatDiffuse ++ ['}', '}'])

/-- `"{{CatDiffuse}} text {{Cat diffuse}}"` -/
def txDoc : List Char :=
  txSingle ++ [' ', 't', 'e', 'x', 't', ' '] ++
    ('{' :: '{' :: (nCatSpaceDiffuse ++ ['}', '}']))

/-- `"{{CatDiffuse}} a  b"` -/
def txSpaces : List Char := txSingle ++ [' ', 'a', ' ', ' ', 'b']

/-- `"{{CatDiffuse|0}}"` -/
def txZero : List Char := '{' :: '{' :: (nCatDiffuse ++ ['|', '0', '}', '}'])

/-- `"{{Cat_diffuse}}"` -/
def txUnderscore : List Char :=
  '{' :: '{' :: (nCatUnderscoreDiffuse ++ ['}', '}'])

/-- `"{{Diffusion by condition|200}}CatDiffuse{{CatDiffuse}}"` -/
def txRedundant : List Char :=
  canonicalInvocation nTargetName 200 ++ nCatDiffuse ++ txSingle

/-- C1 counterexample: with the configured source list containing both
`CatDiffuse` and `Catdiffuse` (as config.py does), the single invocation
`"{{CatDiffuse}}"` is detected twice at the same span; the replace-first
branch replaces it and then deletes the whole replacement again, returning
the empty text with `changed = true` — the output contains no target
invocation at all, contradicting the claimed exactly-one-target outcome. -/
theorem replace_first_dup_source_empty :
    sourceFound txSingle [nCatDiffuse, nCatdiffuse] ≠ [] ∧
      has_target_template txSingle nTargetName = false ∧
      (replace_templates txSingle [nCatDiffuse, nCatdiffuse] nTargetName 200).1 = [] ∧
      (replace_templates txSingle [nCatDiffuse, nCatdiffuse] nTargetName 200).2.1 = true ∧
      has_target_template
        (replace_templates txSingle [nCatDiffuse, nCatdiffuse] nTargetName 200).1
        nTargetName = false := by decide

/-- C2 counterexample: a plain-text mention of a source name outside any
invocation survives the remove-redundant branch, so the output contains a
source-name substring even though the claim demands zero. -/
theorem remove_redundant_keeps_plain_mention :
    sourceFound txRedundant [nCatDiffuse] ≠ [] ∧
      has_target_template txRedundant nTargetName = true ∧
      (replace_templates txRedundant [nCatDiffuse] nTargetName 200).1 =
        canonicalInvocation nTargetName 200 ++ nCatDiffuse ∧
      (replace_templates txRedundant [nCatDiffuse] nTargetName 200).2.1 = true ∧
      containsSub (replace_templates txRedundant [nCatDiffuse] nTargetName 200).1
        nCatDiffuse = true := by decide

/-- C3 counterexample: `"{{CatDiffuse|0}}"` carries the positional integer
override 0, yet the falsy test `custom_limit if custom_limit else
default_limit` discards it and writes the default 200. -/
theorem zero_override_falls_back_to_default :
    extract_limit_from_template txZero nCatDiffuse = some 0 ∧
      (replace_templates txZero [nCatDiffuse] nTargetName 200).1 =
        canonicalInvocation nTargetName 200 ∧
      (replace_templates txZero [nCatDiffuse] nTargetName 200).1 ≠
        canonicalInvocation nTargetName 0 := by decide

/-- C4 counterexample: `"{{Cat_diffuse}}"` is not recognized as an
occurrence of the candidate `"Cat diffuse"`: the regex matches the escaped
candidate literally, so an underscore written in place of the space defeats
detection and the engine reports no match. -/
theorem underscore_variant_not_detected :
    sourceFound txUnderscore [nCatSpaceDiffuse] = [] ∧
      replace_templates txUnderscore [nCatSpaceDiffuse] nTargetName 200 =
        (txUnderscore, false, sNoMatch) := by decide

/-- C5: when detection finds no source-template occurrence the engine
returns the input unchanged with `changed = false`. -/
theorem replace_templates_noMatch (text : List Char)
    (source_templates : List (List Char)) (target_template : List Char)
    (default_limit : Nat)
    (h : sourceFound text source_templates = []) :
    replace_templates text source_templates target_template default_limit =
      (text, false, sNoMatch) := by
  unfold replace_templates
  rw [h]

/-- C5 witness: text with a target invocation but no source occurrence. -/
theorem replace_templates_noMatch_witness :
    sourceFound (canonicalInvocation nTargetName 200 ++ [' ', 'h', 'i'])
        [nCatDiffuse, nCatdiffuse, nCatSpaceDiffuse] = [] ∧
      replace_templates (canonicalInvocation nTargetName 200 ++ [' ', 'h', 'i'])
        [nCatDiffuse, nCatdiffuse, nCatSpaceDiffuse] nTargetName 200 =
        (canonicalInvocation nTargetName 200 ++ [' ', 'h', 'i'], false, sNoMatch) :=
  ⟨by decide,
    replace_templates_noMatch _ _ _ _ (by decide)⟩

/-- C7: the replace-first branch runs only the newline cleanup, never the
space cleanup, so the documented scenario
`"{{CatDiffuse}} text {{Cat diffuse}}"` yields
`"{{Diffusion by condition|200}} text "` with a trailing space (the
docstring and spec promise `"{{Diffusion by condition|200}} text"`), and an
interior double space also survives the edit. -/
theorem replace_first_keeps_spaces :
    (replace_templates txDoc [nCatDiffuse, nCatSpaceDiffuse] nTargetName 200).1 =
        canonicalInvocation nTargetName 200 ++ [' ', 't', 'e', 'x', 't', ' '] ∧
      (replace_templates txDoc [nCatDiffuse, nCatSpaceDiffuse] nTargetName 200).2.1 = true ∧
      (replace_templates txDoc [nCatDiffuse, nCatSpaceDiffuse] nTargetName 200).1 ≠
        canonicalInvocation nTargetName 200 ++ [' ', 't', 'e', 'x', 't'] ∧
      (replace_templates txSpaces [nCatDiffuse] nTargetName 200).1 =
        canonicalInvocation nTargetName 200 ++ [' ', 'a', ' ', ' ', 'b'] := by decide

/-!
## Member counter (category_diffusion_bot.py / replace_catdiffuse.py)

`count_files_in_category` iterates the category members (fetched with
`total = threshold + 1`) and breaks as soon as the count exceeds the
threshold.  Members are abstracted as a list.
-/

def countLoop (threshold : Nat) : List α → Nat → Nat
  | [], count => count
  | _ :: rest, count =>
    if count + 1 > threshold then count + 1 else countLoop threshold rest (count + 1)

def count_files_in_category (members : List α) (threshold : Nat) : Nat :=
  countLoop threshold (members.take (threshold + 1)) 0

/-- The decision `file_count <= threshold` guarding the automated action in
both bots' main loops. -/
def declutter_eligible (members : List α) (threshold : Nat) : Bool :=
  decide (count_files_in_category members threshold ≤ threshold)

theorem countLoop_min (threshold : Nat) (l : List α) :
    ∀ c, c ≤ threshold →
      countLoop threshold l c = min (c + l.length) (threshold + 1) := by
  induction l with
  | nil => intro c hc; simp [countLoop]; omega
  | cons x t ih =>
    intro c hc
    rw [countLoop]
    by_cases h : c + 1 > threshold
    · rw [if_pos h]; simp; omega
    · rw [if_neg h, ih (c + 1) (by omega)]; simp; omega

/-- C9: the counter returns `min(actual, threshold + 1)` — in particular it
never exceeds `threshold + 1` — and the action guard `count ≤ threshold`
accepts a count of exactly `threshold` and rejects `threshold + 1`. -/
theorem counter_threshold_boundary {α : Type} (members : List α) (threshold : Nat) :
    count_files_in_category members threshold =
        min members.length (threshold + 1) ∧
      count_files_in_category members threshold ≤ threshold + 1 ∧
      (declutter_eligible members threshold = true ↔ members.length ≤ threshold) ∧
      (count_files_in_category members threshold = threshold →
        declutter_eligible members threshold = true) ∧
      (count_files_in_category members threshold = threshold + 1 →
        declutter_eligible members threshold = false) := by
  have hc : count_files_in_category members threshold =
      min members.length (threshold + 1) := by
    rw [count_files_in_category, countLoop_min threshold _ 0 (by omega)]
    simp [List.length_take]
    omega
  refine ⟨hc, by omega, ?_, ?_, ?_⟩
  · rw [declutter_eligible, hc]
    simp only [decide_eq_true_eq]
    omega
  · intro h
    rw [declutter_eligible, h]
    simp only [decide_eq_true_eq]
    omega
  · intro h
    rw [declutter_eligible, h]
    simp only [decide_eq_false_iff_not]
    omega

/-- C9 witness: a category of exactly `threshold` files is eligible, one of
`threshold + 1` (even if enumeration would go further) is not. -/
theorem counter_threshold_boundary_witness :
    count_files_in_category (List.replicate 3 0) 3 = 3 ∧
      declutter_eligible (List.replicate 3 0) 3 = true ∧
      count_files_in_category (List.replicate 9 0) 3 = 4 ∧
      declutter_eligible (List.replicate 9 0) 3 = false :=
  ⟨by decide,
    (counter_threshold_boundary (List.replicate 3 0) 3).2.2.2.1 (by decide),
    by decide,
    (counter_threshold_boundary (List.replicate 9 0) 3).2.2.2.2 (by decide)⟩

/-!
## Simple Tag Remover (category_diffusion_bot.py, remove_category_from_parent)

Only the text transformation is modelled; fetching and saving the page are
external collaborators.
-/

/-- Exact (case-sensitive) literal head match, returning the rest. -/
def stripPrefixL : List Char → List Char → Option (List Char)
  | [], s => some s
  | _ :: _, [] => none
  | n :: ns, c :: cs => if n = c then stripPrefixL ns cs else none

/-- Python `str.replace(old, new)`: one left-to-right pass over
non-overlapping occurrences.  Fueled; `s.length + 1` steps always suffice.
An empty `old` is not modelled (callers pass a bracketed tag). -/
def replaceAllF : Nat → List Char → List Char → List Char → List Char
  | 0, s, _, _ => s
  | fuel + 1, s, old, new =>
    if old ≠ [] ∧ startsWithL old s = true then
      new ++ replaceAllF fuel (s.drop old.length) old new
    else
      match s with
      | [] => []
      | c :: t => c :: replaceAllF fuel t old new

def replaceAll (s old new : List Char) : List Char :=
  replaceAllF (s.length + 1) s old new

/-- Try `\[\[title\|[^\]]*\]\]` at the start of `s`; on success return the
rest after the whole tag span. -/
def matchPipeTagAt (title : List Char) (s : List Char) : Option (List Char) :=
  match stripPrefixL ('[' :: '[' :: (title ++ ['|'])) s with
  | none => none
  | some r1 =>
    match r1.dropWhile (fun c => ¬ (c = ']')) with
    | ']' :: ']' :: r3 => some r3
    | _ => none

/-- `re.sub` deleting every sort-keyed tag occurrence. -/
def delPipeTagsF : Nat → List Char → List Char → List Char
  | 0, s, _ => s
  | fuel + 1, s, title =>
    match matchPipeTagAt title s with
    | some rest => delPipeTagsF fuel rest title
    | none =>
      match s with
      | [] => []
      | c :: t => c :: delPipeTagsF fuel t title

def delPipeTags (s title : List Char) : List Char :=
  delPipeTagsF (s.length + 1) s title

/-- The text transformation of `remove_category_from_parent`: returns the
new text and the `removed` outcome. -/
def remove_category_from_parent_text (text : List Char) (parent_title : List Char) :
    List Char × Bool :=
  let parent_tag := '[' :: '[' :: (parent_title ++ [']', ']'])
  let parent_tag_pipe := '[' :: '[' :: (parent_title ++ ['|'])
  if !containsSub text parent_tag && !containsSub text parent_tag_pipe then
    (text, false)
  else
    let t1 := if containsSub text parent_tag then replaceAll text parent_tag [] else text
    let t2 := delPipeTags t1 parent_title
    if t2 = text then (text, false) else (t2, true)

def sSortKey : List Char := ['S', 'o', 'r', 't', 'K', 'e', 'y']

def sCategoryParent : List Char :=
  ['C', 'a', 't', 'e', 'g', 'o', 'r', 'y', ':', 'P', 'a', 'r', 'e', 'n', 't']

def sScenarioPre : List Char := ['S', 'o', 'm', 'e', ' ', 't', 'e', 'x', 't', '\n']

def sScenarioPost : List Char := ['\n', 'M', 'o', 'r', 'e', ' ', 't', 'e', 'x', 't']

/-- `"Some text\n[[Category:Parent|SortKey]]\nMore text"` -/
def txTagScenario : List Char :=
  sScenarioPre ++
    ('[' :: '[' :: (sCategoryParent ++ '|' :: sSortKey ++ [']', ']'])) ++
    sScenarioPost

/-- `"a[[Category:Parent|b"` -/
def txDanglingTag : List Char :=
  'a' :: '[' :: '[' :: (sCategoryParent ++ ['|', 'b'])

/-- C8 counterexample: the sort-key form `"[[Category:Parent|"` occurs, but
no well-formed closing `"]]"` follows, so nothing is deleted and the remover
reports `removed = false`, contradicting the claimed unconditional deletion
with `removed = true`. -/
theorem dangling_pipe_tag_not_removed :
    containsSub txDanglingTag ('[' :: '[' :: (sCategoryParent ++ ['|'])) = true ∧
      remove_category_from_parent_text txDanglingTag sCategoryParent =
        (txDanglingTag, false) := by decide

/-- C8 (amended): when neither literal form occurs the text is returned
unchanged with `removed = false`; and in the spec's literal scenario the
complete sort-keyed tag span is deleted with `removed = true`. -/
theorem removeTag_behaviour :
    (∀ text title,
        containsSub text ('[' :: '[' :: (title ++ [']', ']'])) = false →
        containsSub text ('[' :: '[' :: (title ++ ['|'])) = false →
        remove_category_from_parent_text text title = (text, false)) ∧
      remove_category_from_parent_text txTagScenario sCategoryParent =
        (sScenarioPre ++ sScenarioPost, true) := by
  constructor
  · intro text title h1 h2
    rw [remove_category_from_parent_text]
    rw [h1, h2]
    rfl
  · decide

/-- C8 amended witness: a text mentioning the title without brackets is
left alone. -/
theorem removeTag_behaviour_witness :
    containsSub sCategoryParent
        ('[' :: '[' :: (sCategoryParent ++ [']', ']'])) = false ∧
      containsSub sCategoryParent
        ('[' :: '[' :: (sCategoryParent ++ ['|'])) = false ∧
      remove_category_from_parent_text sCategoryParent sCategoryParent =
        (sCategoryParent, false) :=
  ⟨by decide, by decide,
    removeTag_behaviour.1 sCategoryParent sCategoryParent (by decide) (by decide)⟩

/-!
## Alternative engine (replace_catdiffuse.py)

`find_and_replace_templates` parses the page with mwparserfromhell and
rewrites template nodes in place.  The external parser is modelled by a
sequence of nodes (plain text or a template with an ordered parameter
list); parameter adds follow mwparserfromhell's replace-or-append
behaviour with exact parameter-name matching.  Nested templates inside
arguments are outside the model.
-/

inductive WNode where
  | text (s : List Char) : WNode
  | template (name : List Char) (params : List (List Char × List Char)) : WNode
deriving DecidableEq, Repr

def sTemplateColon : List Char :=
  ['t', 'e', 'm', 'p', 'l', 'a', 't', 'e', ':']

def sThresholdWord : List Char :=
  ['t', 'h', 'r', 'e', 's', 'h', 'o', 'l', 'd']

/-- `normalize_template_name` from replace_catdiffuse.py: strip and lower
only (no underscore handling, no namespace split). -/
def normalizeTplName2 (name : List Char) : List Char :=
  (stripB name).map lowerChar

/-- The per-template name key: normalized, with a leading `template:`
stripped (followed by another strip). -/
def tplKey (name : List Char) : List Char :=
  let n := normalizeTplName2 name
  if startsWithL sTemplateColon n then stripB (n.drop 9) else n

/-- `int(str(value).strip())`: optional sign followed by decimal digits
(digit-group underscores are not modelled). -/
def parsePyInt (s : List Char) : Option Int :=
  match s with
  | '-' :: ds =>
    if ds ≠ [] ∧ ds.all isDigitPy then some (-(digitsVal ds : Int)) else none
  | '+' :: ds =>
    if ds ≠ [] ∧ ds.all isDigitPy then some ((digitsVal ds : Int)) else none
  | ds =>
    if ds ≠ [] ∧ ds.all isDigitPy then some ((digitsVal ds : Int)) else none

/-- Scan a template's parameters for the last `threshold` value that parses
as an integer (each successful parse overwrites the previous one). -/
def paramThreshold (params : List (List Char × List Char)) : Option Int :=
  params.foldl
    (fun acc p =>
      if (stripB p.1).map lowerChar = sThresholdWord then
        match parsePyInt (stripB p.2) with
        | some k => some k
        | none => acc
      else acc)
    none

/-- Decimal rendering of a Python int. -/
def intToStr (i : Int) : List Char :=
  if i < 0 then '-' :: natToStr i.natAbs else natToStr i.toNat

/-- mwparserfromhell's `Template.add`: replace the value of an existing
parameter of that name, else append. -/
def addParam (ps : List (List Char × List Char)) (n v : List Char) :
    List (List Char × List Char) :=
  if ps.any (fun q => q.1 = n) then
    ps.map (fun q => if q.1 = n then (n, v) else q)
  else
    ps ++ [(n, v)]

/-- Build the replacement template node: copy the parameters (when
`preserve_params`), then add `threshold` only if no parameter of that name
was copied. -/
def buildReplacement (target : List Char) (finalThreshold : Int)
    (preserve : Bool) (params : List (List Char × List Char)) : WNode :=
  let base := if preserve then params.foldl (fun acc p => addParam acc p.1 p.2) [] else []
  let withThr :=
    if base.any (fun q => (stripB q.1).map lowerChar = sThresholdWord) then base
    else base ++ [(sThresholdWord, intToStr finalThreshold)]
  WNode.template target withThr

/-- Does this node match one of the normalized source names? -/
def isSrcNode (source_template_names : List (List Char)) : WNode → Bool
  | WNode.template nm _ =>
    (source_template_names.map normalizeTplName2).any (fun s => s = tplKey nm)
  | _ => false

/-- The node-iteration loop: replace matching templates in place, record
`changed`, and thread the last successfully parsed `threshold`. -/
def farLoop (source_template_names : List (List Char)) (target : List Char)
    (threshold_value : Int) (preserve : Bool) :
    List WNode → Option Int → List WNode × Bool × Option Int
  | [], det => ([], false, det)
  | n :: rest, det =>
    match n with
    | WNode.template nm ps =>
      if isSrcNode source_template_names (WNode.template nm ps) then
        let ex := paramThreshold ps
        let det1 := match ex with | some k => some k | none => det
        let r := farLoop source_template_names target threshold_value preserve rest det1
        (buildReplacement target (ex.getD threshold_value) preserve ps :: r.1, true, r.2.2)
      else
        let r := farLoop source_template_names target threshold_value preserve rest det
        (WNode.template nm ps :: r.1, r.2.1, r.2.2)
    | t =>
      let r := farLoop source_template_names target threshold_value preserve rest det
      (t :: r.1, r.2.1, r.2.2)

/-- `find_and_replace_templates` from replace_catdiffuse.py, at node level. -/
def find_and_replace_templates (nodes : List WNode)
    (source_template_names : List (List Char)) (target_template_name : List Char)
    (threshold_value : Int) (preserve : Bool) : List WNode × Bool × Option Int :=
  farLoop source_template_names target_template_name threshold_value preserve nodes none

/-- Number of template nodes whose name normalizes to the given key. -/
def countKey (k : List Char) : List WNode → Nat
  | [] => 0
  | WNode.template nm _ :: t => (if tplKey nm = k then 1 else 0) + countKey k t
  | _ :: t => countKey k t

/-- Number of source-template occurrences in the parsed node list. -/
def countSrc (source_template_names : List (List Char)) : List WNode → Nat
  | [] => 0
  | n :: t =>
    (if isSrcNode source_template_names n then 1 else 0) +
      countSrc source_template_names t

theorem farLoop_count (sources : List (List Char)) (target : List Char)
    (thr : Int) (preserve : Bool)
    (h : (sources.map normalizeTplName2).any (fun s => s = tplKey target) = false) :
    ∀ (nodes : List WNode) (det : Option Int),
      countKey (tplKey target) (farLoop sources target thr preserve nodes det).1 =
        countKey (tplKey target) nodes + countSrc sources nodes := by
  intro nodes
  induction nodes with
  | nil => intro det; rfl
  | cons n rest ih =>
    intro det
    match n with
    | WNode.text s =>
      simp only [farLoop, countKey, countSrc, isSrcNode]
      simp [ih det]
    | WNode.template nm ps =>
      by_cases hsrc : isSrcNode sources (WNode.template nm ps) = true
      · have hne : ¬ (tplKey nm = tplKey target) := by
          intro he
          have hsrc' : ((sources.map normalizeTplName2).any
              fun s => decide (s = tplKey nm)) = true := by
            simpa [isSrcNode] using hsrc
          rw [he] at hsrc'
          simp [hsrc'] at h
        simp only [farLoop]
        rw [if_pos hsrc]
        simp only [buildReplacement, countKey, countSrc]
        rw [if_neg hne, if_pos hsrc, ih]
        simp only [if_true]
        omega
      · simp only [farLoop]
        rw [if_neg hsrc]
        simp only [countKey, countSrc]
        rw [if_neg hsrc, ih]
        omega

/-- C10 counterexample: with a target invocation already present and one
source occurrence (n = 1), the output contains two target invocations, not
one — the per-occurrence replacement adds to whatever targets already
exist. -/
theorem far_preexisting_target_count :
    countSrc [nCatDiffuse]
        [WNode.template nTargetName [], WNode.template nCatDiffuse []] = 1 ∧
      countKey (tplKey nTargetName)
        (find_and_replace_templates
          [WNode.template nTargetName [], WNode.template nCatDiffuse []]
          [nCatDiffuse] nTargetName 200 true).1 = 2 := by decide

/-- C10 (amended): the alternative engine replaces each recognized source
template in place with its own copy of the target — for any node list the
output's target count equals the input's target count plus the number of
source occurrences (no consolidation) — and the numeric override travels
through a parameter named `threshold`: a positional `150` is copied but
`threshold=200` (the default) is still appended, while `threshold=150` is
preserved and reported. -/
theorem far_replaces_each_occurrence (nodes : List WNode)
    (sources : List (List Char)) (target : List Char) (thr : Int)
    (preserve : Bool)
    (h : (sources.map normalizeTplName2).any (fun s => s = tplKey target) = false) :
    countKey (tplKey target)
        (find_and_replace_templates nodes sources target thr preserve).1 =
      countKey (tplKey target) nodes + countSrc sources nodes ∧
      find_and_replace_templates
          [WNode.template nCatDiffuse [(['1'], ['1', '5', '0'])]]
          [nCatDiffuse] nTargetName 200 true =
        ([WNode.template nTargetName
            [(['1'], ['1', '5', '0']), (sThresholdWord, ['2', '0', '0'])]],
          true, none) ∧
      find_and_replace_templates
          [WNode.template nCatDiffuse [(sThresholdWord, ['1', '5', '0'])]]
          [nCatDiffuse] nTargetName 200 true =
        ([WNode.template nTargetName [(sThresholdWord, ['1', '5', '0'])]],
          true, some 150) :=
  ⟨farLoop_count sources target thr preserve h nodes none, by decide, by decide⟩

/-- C10 amended witness: two source occurrences and no pre-existing target
give exactly two target invocations. -/
theorem far_replaces_each_occurrence_witness :
    ((([nCatDiffuse].map normalizeTplName2).any
        (fun s => s = tplKey nTargetName)) = false) ∧
      countKey (tplKey nTargetName)
        (find_and_replace_templates
          [WNode.template nCatDiffuse [], WNode.text [' '],
            WNode.template nCatDiffuse []]
          [nCatDiffuse] nTargetName 200 true).1 =
        countKey (tplKey nTargetName)
          [WNode.template nCatDiffuse [], WNode.text [' '],
            WNode.template nCatDiffuse []] +
          countSrc [nCatDiffuse]
            [WNode.template nCatDiffuse [], WNode.text [' '],
              WNode.template nCatDiffuse []] :=
  ⟨by decide,
    (far_replaces_each_occurrence
      [WNode.template nCatDiffuse [], WNode.text [' '],
        WNode.template nCatDiffuse []]
      [nCatDiffuse] nTargetName 200 true (by decide)).1⟩

theorem stripPrefixCI_lower (n : List Char) :
    ∀ s, stripPrefixCI (n.map lowerChar) s = stripPrefixCI n s := by
  induction n with
  | nil => intro s; rfl
  | cons a t ih =>
    intro s
    cases s with
    | nil => rfl
    | cons c cs =>
      simp only [List.map_cons, stripPrefixCI, lowerChar_idem, ih]

theorem matchTemplateAt_lower (name s : List Char) :
    matchTemplateAt (name.map lowerChar) s = matchTemplateAt name s := by
  simp only [matchTemplateAt, stripPrefixCI_lower]

theorem matchTargetAt_lower (target s : List Char) :
    matchTargetAt (target.map lowerChar) s = matchTargetAt target s := by
  simp only [matchTargetAt, stripPrefixCI_lower]

theorem findMatchesF_lower (name : List Char) :
    ∀ (fuel : Nat) (s : List Char) (pos : Nat),
      findMatchesF (name.map lowerChar) fuel s pos = findMatchesF name fuel s pos := by
  intro fuel
  induction fuel with
  | zero => intro s pos; rfl
  | succ f ih =>
    intro s pos
    simp only [findMatchesF, matchTemplateAt_lower]
    cases hm : matchTemplateAt name s with
    | some p => simp [ih]
    | none =>
      cases s with
      | nil => rfl
      | cons c t => simp [ih]

theorem hasTargetScan_lower (target : List Char) :
    ∀ s, hasTargetScan (target.map lowerChar) s = hasTargetScan target s := by
  intro s
  induction s with
  | nil => rfl
  | cons c t ih => simp only [hasTargetScan, matchTargetAt_lower, ih]

/-- `"{{ catdiffuse }}"` -/
def txSpacedLower : List Char :=
  '{' :: '{' :: ' ' :: (nCatDiffuse.map lowerChar ++ [' ', '}', '}'])

/-- C4 (amended): candidate matching is exactly case-insensitive — lowering
the candidate never changes source detection or target detection — and
optional whitespace around the written name is tolerated (the spaced
lowercase invocation is found); underscores in place of spaces and
namespace prefixes are not unified (see the counterexample). -/
theorem detection_case_insensitive (name target s : List Char) (fuel pos : Nat) :
    findMatchesF (name.map lowerChar) fuel s pos = findMatchesF name fuel s pos ∧
      hasTargetScan (target.map lowerChar) s = hasTargetScan target s ∧
      sourceFound txSpacedLower [nCatDiffuse] ≠ [] ∧
      has_target_template txSpacedLower nCatDiffuse = true :=
  ⟨findMatchesF_lower name fuel s pos, hasTargetScan_lower target s,
    by decide, by decide⟩

/-!
## Position-stable editing: splice characterization

`spansOk lo len spans` says the spans are listed in ascending order, are
pairwise disjoint, are nonempty, start at or after `lo`, and end inside a
text of length `len`.  `segsFrom o b spans` is the straightforward splice:
the text from `b` on with every span cut out.
-/

def spansOk (lo len : Nat) : List SrcMatch → Bool
  | [] => true
  | m :: rs =>
    decide (lo ≤ m.start) && decide (0 < m.matched.length) &&
      decide (mEnd m ≤ len) && spansOk (mEnd m) len rs

def segsFrom (o : List Char) (b : Nat) : List SrcMatch → List Char
  | [] => o.drop b
  | m :: rs => (o.drop b).take (m.start - b) ++ segsFrom o (mEnd m) rs

theorem take_append_exact (d x : List Char) (k : Nat) :
    (d ++ x).take (d.length + k) = d ++ x.take k := by
  rw [List.take_append_eq_append_take, List.take_of_length_le (by omega),
    Nat.add_sub_cancel_left]

theorem drop_append_exact (d x : List Char) (k : Nat) :
    (d ++ x).drop (d.length + k) = x.drop k := by
  rw [List.drop_append_eq_append_drop, List.drop_eq_nil_of_le (by omega),
    Nat.add_sub_cancel_left, List.nil_append]

theorem spansOk_destruct {lo len : Nat} {m : SrcMatch} {rs : List SrcMatch}
    (h : spansOk lo len (m :: rs) = true) :
    lo ≤ m.start ∧ 0 < m.matched.length ∧ mEnd m ≤ len ∧
      spansOk (mEnd m) len rs = true := by
  simpa [spansOk, Bool.and_eq_true, decide_eq_true_eq, and_assoc] using h

/-- The offset-tracking removal loop of the replace-first branch performs
exactly the straightforward splice, for disjoint in-bounds spans. -/
theorem removeRest_splice (o : List Char) (firstStart : Nat) :
    ∀ (rs : List SrcMatch) (done : List Char) (b : Nat),
      spansOk b o.length rs = true →
      firstStart < b →
      removeRest firstStart rs (done ++ o.drop b)
          ((done.length : Int) - (b : Int)) =
        done ++ segsFrom o b rs := by
  intro rs
  induction rs with
  | nil => intro done b _ _; rfl
  | cons m rs ih =>
    intro done b hok hfs
    obtain ⟨h1, h2, h3, h4⟩ := spansOk_destruct hok
    have hme : m.start < mEnd m := by rw [mEnd]; omega
    have hbme : b ≤ mEnd m := by omega
    have hsl : m.start ≤ o.length := by omega
    simp only [removeRest]
    rw [if_pos (show ((m.start : Int) > (firstStart : Int)) by omega),
      if_pos (show (((mEnd m : Nat) : Int) > (firstStart : Int)) by omega)]
    have hns : pyIdx (done ++ List.drop b o).length
        ((m.start : Int) + ((done.length : Int) - (b : Int))) =
          done.length + (m.start - b) := by
      rw [pyIdx, if_neg (by omega)]
      omega
    have hne : pyIdx (done ++ List.drop b o).length
        ((mEnd m : Int) + ((done.length : Int) - (b : Int))) =
          done.length + (mEnd m - b) := by
      rw [pyIdx, if_neg (by omega)]
      omega
    rw [pyCut, hns, hne, take_append_exact, drop_append_exact, List.drop_drop]
    have hbmeq : b + (mEnd m - b) = mEnd m := by omega
    rw [hbmeq]
    have hlen' : (done ++ (List.drop b o).take (m.start - b)).length =
        done.length + (m.start - b) := by
      rw [List.length_append, List.length_take, List.length_drop]
      omega
    have hoff : ((done.length : Int) - (b : Int)) -
        (((mEnd m : Int) + ((done.length : Int) - (b : Int))) -
          ((m.start : Int) + ((done.length : Int) - (b : Int)))) =
        (((done ++ (List.drop b o).take (m.start - b)).length : Int) -
          ((mEnd m : Nat) : Int)) := by
      rw [hlen']
      omega
    rw [hoff, ih _ _ h4 (by omega)]
    simp only [segsFrom]
    rw [List.append_assoc]

theorem segsFrom_take (o : List Char) :
    ∀ (rs : List SrcMatch) (lo a : Nat),
      spansOk lo o.length rs = true → a ≤ lo → a ≤ o.length →
      (segsFrom o 0 rs).take a = o.take a := by
  intro rs
  induction rs with
  | nil => intro lo a _ _ _; simp [segsFrom]
  | cons m rs _ =>
    intro lo a hok ha hal
    obtain ⟨h1, h2, h3, _⟩ := spansOk_destruct hok
    have hme : m.start < mEnd m := by rw [mEnd]; omega
    simp only [segsFrom, List.drop_zero, Nat.sub_zero]
    rw [List.take_append_eq_append_take, List.take_take, List.length_take]
    have hmin1 : min a m.start = a := by omega
    have hmin2 : a - min m.start o.length = 0 := by omega
    rw [hmin1, hmin2]
    simp

theorem segsFrom_drop (o : List Char) :
    ∀ (rs : List SrcMatch) (lo e : Nat),
      spansOk lo o.length rs = true → e ≤ lo →
      (segsFrom o 0 rs).drop e = segsFrom o e rs := by
  intro rs
  induction rs with
  | nil => intro lo e _ _; simp [segsFrom]
  | cons m rs _ =>
    intro lo e hok he
    obtain ⟨h1, h2, h3, _⟩ := spansOk_destruct hok
    have hme : m.start < mEnd m := by rw [mEnd]; omega
    have hsl : m.start ≤ o.length := by omega
    simp only [segsFrom, List.drop_zero, Nat.sub_zero]
    rw [List.drop_append_eq_append_drop, List.drop_take, List.length_take]
    have hmin : e - min m.start o.length = 0 := by omega
    rw [hmin]
    simp

/-- The back-to-front deletion pass of the remove-redundant branch performs
exactly the straightforward splice, for disjoint in-bounds spans. -/
theorem foldrDel_segs (o : List Char) :
    ∀ (spans : List SrcMatch) (lo : Nat),
      spansOk lo o.length spans = true →
      List.foldr (fun m t => delOne t m) o spans = segsFrom o 0 spans := by
  intro spans
  induction spans with
  | nil => intro lo _; simp [segsFrom]
  | cons m rs ih =>
    intro lo hok
    obtain ⟨h1, h2, h3, h4⟩ := spansOk_destruct hok
    have hme : m.start < mEnd m := by rw [mEnd]; omega
    rw [List.foldr_cons, ih (mEnd m) h4, delOne]
    rw [segsFrom_take o rs (mEnd m) m.start h4 (by omega) (by omega),
      segsFrom_drop o rs (mEnd m) (mEnd m) h4 (by omega)]
    simp [segsFrom]

theorem removeRest_initial (o pre repl : List Char) (first : SrcMatch)
    (rest : List SrcMatch)
    (hpre : pre = o.take first.start)
    (hfl : 0 < first.matched.length) (hfe : mEnd first ≤ o.length)
    (hok : spansOk (mEnd first) o.length rest = true) :
    removeRest first.start rest (pre ++ repl ++ o.drop (mEnd first))
        ((repl.length : Int) - (first.matched.length : Int)) =
      pre ++ repl ++ segsFrom o (mEnd first) rest := by
  have hfs : first.start < mEnd first := by rw [mEnd]; omega
  have hsl : first.start ≤ o.length := by omega
  have hdl : (pre ++ repl).length = first.start + repl.length := by
    rw [hpre, List.length_append, List.length_take]; omega
  have hoff : ((repl.length : Int) - (first.matched.length : Int)) =
      (((pre ++ repl).length : Int) - ((mEnd first : Nat) : Int)) := by
    rw [hdl, mEnd]; omega
  rw [hoff]
  exact removeRest_splice o first.start rest (pre ++ repl) (mEnd first) hok hfs

/-- C2 (amended): whenever the target already occurs and the sorted
detected occurrences have disjoint in-bounds spans, the remove-redundant
branch deletes exactly those spans (position-stable back-to-front
deletion equals the straightforward splice), applies both cleanups, and
reports `changed = true`; the target-count / zero-source-substring clauses
of the claim do not hold in general. -/
theorem remove_redundant_splices (text : List Char) (sources : List (List Char))
    (target : List Char) (d : Nat) (m : SrcMatch) (ms : List SrcMatch)
    (hsort : sortByStart (sourceFound text sources) = m :: ms)
    (htgt : has_target_template text target = true)
    (hok : spansOk 0 text.length (m :: ms) = true) :
    replace_templates text sources target d =
      (collapseSp (collapseNl (segsFrom text 0 (m :: ms))), true, sRedundant) := by
  cases hf : sourceFound text sources with
  | nil => rw [hf] at hsort; simp [sortByStart] at hsort
  | cons f fs =>
    rw [hf] at hsort
    simp only [replace_templates, hf, htgt, if_true]
    rw [hsort, List.foldl_reverse, foldrDel_segs text (m :: ms) 0 hok]

theorem replace_first_branch_eq (text : List Char) (sources : List (List Char))
    (target : List Char) (d : Nat) (first : SrcMatch) (rest : List SrcMatch)
    (hsort : sortByStart (sourceFound text sources) = first :: rest)
    (htgt : has_target_template text target = false)
    (hfl : 0 < first.matched.length)
    (hfe : mEnd first ≤ text.length)
    (hok : spansOk (mEnd first) text.length rest = true) :
    replace_templates text sources target d =
      (collapseNl (text.take first.start ++
          canonicalInvocation target (appliedLimit first d) ++
          segsFrom text (mEnd first) rest),
        true,
        actionReplaced first.source target (appliedLimit first d)
          (sourceFound text sources).length) := by
  cases hf : sourceFound text sources with
  | nil => rw [hf] at hsort; simp [sortByStart] at hsort
  | cons f fs =>
    rw [hf] at hsort
    simp only [replace_templates, hf, htgt, Bool.false_eq_true, if_false]
    simp only [hsort]
    rw [removeRest_initial text (text.take first.start)
      (canonicalInvocation target (appliedLimit first d)) first rest rfl hfl hfe hok]
    simp [List.length_cons]

/-- C1 (amended): when the target is absent and the sorted detected
occurrences have disjoint in-bounds spans, the engine replaces the
earliest occurrence's span with the canonical `{{target|appliedLimit}}`
invocation, deletes every remaining occurrence by position-stable
splicing, collapses newline runs, and reports `changed = true` with the
documented summary; the exactly-one-target / zero-source-substring /
at-most-one-target clauses of the claim do not hold in general. -/
theorem replace_first_splices (text : List Char) (sources : List (List Char))
    (target : List Char) (d : Nat) (first : SrcMatch) (rest : List SrcMatch)
    (hsort : sortByStart (sourceFound text sources) = first :: rest)
    (htgt : has_target_template text target = false)
    (hfl : 0 < first.matched.length)
    (hfe : mEnd first ≤ text.length)
    (hok : spansOk (mEnd first) text.length rest = true) :
    replace_templates text sources target d =
      (collapseNl (text.take first.start ++
          canonicalInvocation target (appliedLimit first d) ++
          segsFrom text (mEnd first) rest),
        true,
        actionReplaced first.source target (appliedLimit first d)
          (sourceFound text sources).length) :=
  replace_first_branch_eq text sources target d first rest hsort htgt hfl hfe hok

/-- `"{{Diffusion by condition|200}} {{CatDiffuse}}"` -/
def txRedundantSpace : List Char :=
  canonicalInvocation nTargetName 200 ++ (' ' :: txSingle)

/-- `"{{Cat diffuse}}"` as matched text. -/
def txSecondTpl : List Char := '{' :: '{' :: (nCatSpaceDiffuse ++ ['}', '}'])

/-- C1 amended witness: the docstring's two-occurrence scenario. -/
theorem replace_first_splices_witness :
    sortByStart (sourceFound txDoc [nCatDiffuse, nCatSpaceDiffuse]) =
        [⟨nCatDiffuse, 0, txSingle⟩, ⟨nCatSpaceDiffuse, 20, txSecondTpl⟩] ∧
      has_target_template txDoc nTargetName = false ∧
      0 < (SrcMatch.mk nCatDiffuse 0 txSingle).matched.length ∧
      mEnd ⟨nCatDiffuse, 0, txSingle⟩ ≤ txDoc.length ∧
      spansOk (mEnd ⟨nCatDiffuse, 0, txSingle⟩) txDoc.length
        [⟨nCatSpaceDiffuse, 20, txSecondTpl⟩] = true ∧
      replace_templates txDoc [nCatDiffuse, nCatSpaceDiffuse] nTargetName 200 =
        (collapseNl (txDoc.take (SrcMatch.mk nCatDiffuse 0 txSingle).start ++
            canonicalInvocation nTargetName
              (appliedLimit ⟨nCatDiffuse, 0, txSingle⟩ 200) ++
            segsFrom txDoc (mEnd ⟨nCatDiffuse, 0, txSingle⟩)
              [⟨nCatSpaceDiffuse, 20, txSecondTpl⟩]),
          true,
          actionReplaced nCatDiffuse nTargetName
            (appliedLimit ⟨nCatDiffuse, 0, txSingle⟩ 200)
            (sourceFound txDoc [nCatDiffuse, nCatSpaceDiffuse]).length) :=
  ⟨by decide, by decide, by decide, by decide, by decide,
    replace_first_splices txDoc [nCatDiffuse, nCatSpaceDiffuse] nTargetName 200
      ⟨nCatDiffuse, 0, txSingle⟩ [⟨nCatSpaceDiffuse, 20, txSecondTpl⟩]
      (by decide) (by decide) (by decide) (by decide) (by decide)⟩

/-- C2 amended witness: the spec's redundant-removal scenario. -/
theorem remove_redundant_splices_witness :
    sortByStart (sourceFound txRedundantSpace [nCatDiffuse]) =
        [⟨nCatDiffuse, 31, txSingle⟩] ∧
      has_target_template txRedundantSpace nTargetName = true ∧
      spansOk 0 txRedundantSpace.length [⟨nCatDiffuse, 31, txSingle⟩] = true ∧
      replace_templates txRedundantSpace [nCatDiffuse] nTargetName 200 =
        (collapseSp (collapseNl
            (segsFrom txRedundantSpace 0 [⟨nCatDiffuse, 31, txSingle⟩])),
          true, sRedundant) :=
  ⟨by decide, by decide, by decide,
    remove_redundant_splices txRedundantSpace [nCatDiffuse] nTargetName 200
      ⟨nCatDiffuse, 31, txSingle⟩ [] (by decide) (by decide) (by decide)⟩

/-!
## Digit and scanning lemmas for the limit-extraction theorem
-/

theorem char_ne_of_toNat {c d : Char} (h : ¬ c.toNat = d.toNat) : ¬ c = d :=
  fun he => h (he ▸ rfl)

theorem digit_bounds {c : Char} (h : isDigitPy c = true) :
    48 ≤ c.toNat ∧ c.toNat ≤ 57 := by
  simpa [isDigitPy] using h

theorem digit_not_space {c : Char} (h : isDigitPy c = true) :
    isSpacePy c = false := by
  have h48 := digit_bounds h
  have e1 : ¬ c = ' ' := char_ne_of_toNat (by
    have : (' ' : Char).toNat = 32 := rfl
    omega)
  have e2 : ¬ c = '\t' := char_ne_of_toNat (by
    have : ('\t' : Char).toNat = 9 := rfl
    omega)
  have e3 : ¬ c = '\n' := char_ne_of_toNat (by
    have : ('\n' : Char).toNat = 10 := rfl
    omega)
  have e4 : ¬ c = '\r' := char_ne_of_toNat (by
    have : ('\r' : Char).toNat = 13 := rfl
    omega)
  have e5 : ¬ c = '\x0b' := char_ne_of_toNat (by
    have : ('\x0b' : Char).toNat = 11 := rfl
    omega)
  have e6 : ¬ c = '\x0c' := char_ne_of_toNat (by
    have : ('\x0c' : Char).toNat = 12 := rfl
    omega)
  simp [isSpacePy, e1, e2, e3, e4, e5, e6]

theorem digit_ne_rbrace {c : Char} (h : isDigitPy c = true) : ¬ c = '}' :=
  char_ne_of_toNat (by
    have h48 := digit_bounds h
    have : ('}' : Char).toNat = 125 := rfl
    omega)

theorem digit_ne_lbrace {c : Char} (h : isDigitPy c = true) : ¬ c = '{' :=
  char_ne_of_toNat (by
    have h48 := digit_bounds h
    have : ('{' : Char).toNat = 123 := rfl
    omega)

theorem digit_ne_newline {c : Char} (h : isDigitPy c = true) : ¬ c = '\n' :=
  char_ne_of_toNat (by
    have h48 := digit_bounds h
    have : ('\n' : Char).toNat = 10 := rfl
    omega)

theorem takeWhile_append_stop (p : Char → Bool) :
    ∀ (l : List Char) (c : Char) (r : List Char),
      (∀ x ∈ l, p x = true) → p c = false →
      ((l ++ c :: r).takeWhile p = l ∧ (l ++ c :: r).dropWhile p = c :: r) := by
  intro l
  induction l with
  | nil =>
    intro c r _ hc
    simp [List.takeWhile_cons, List.dropWhile_cons, hc]
  | cons a t ih =>
    intro c r hl hc
    have ha : p a = true := hl a (by simp)
    have iht := ih c r (fun x hx => hl x (by simp [hx])) hc
    simp [List.takeWhile_cons, List.dropWhile_cons, ha, iht.1, iht.2]

theorem collapseNlAux_cons_other (c : Char) (t : List Char) (h : ¬ c = '\n') :
    collapseNlAux 0 (c :: t) = c :: collapseNlAux 0 t := by
  rw [collapseNlAux.eq_def]
  split
  · next heq => simp at heq
  · next heq =>
    simp at heq
    exact absurd heq.1 h
  · next c2 t2 hne heq =>
    simp at heq
    obtain ⟨h1, h2⟩ := heq
    subst h1
    subst h2
    simp [nlRun]

theorem collapseNl_id_of_no_newline :
    ∀ s : List Char, (∀ c ∈ s, ¬ c = '\n') → collapseNl s = s := by
  intro s
  induction s with
  | nil => intro _; rfl
  | cons c t ih =>
    intro h
    rw [collapseNl, collapseNlAux_cons_other c t (h c (by simp))]
    have := ih (fun x hx => h x (by simp [hx]))
    rw [collapseNl] at this
    rw [this]

theorem digitChar_isDigit (m : Nat) (h : m < 10) :
    isDigitPy (Nat.digitChar m) = true := by
  interval_cases m <;> decide

theorem natToStrAux_digits :
    ∀ (fuel n : Nat) (acc : List Char),
      (∀ c ∈ acc, isDigitPy c = true) →
      (∀ c ∈ natToStrAux fuel n acc, isDigitPy c = true) := by
  intro fuel
  induction fuel with
  | zero => intro n acc hacc; simpa [natToStrAux] using hacc
  | succ f ih =>
    intro n acc hacc
    rw [natToStrAux]
    by_cases h : n < 10
    · rw [if_pos h]
      intro c hc
      rcases List.mem_cons.mp hc with rfl | hc2
      · exact digitChar_isDigit n h
      · exact hacc c hc2
    · rw [if_neg h]
      refine ih (n / 10) (Nat.digitChar (n % 10) :: acc) ?_
      intro c hc
      rcases List.mem_cons.mp hc with rfl | hc2
      · exact digitChar_isDigit (n % 10) (Nat.mod_lt n (by omega))
      · exact hacc c hc2

theorem natToStr_digits (n : Nat) : ∀ c ∈ natToStr n, isDigitPy c = true :=
  natToStrAux_digits (n + 1) n [] (by simp)

theorem canonicalInvocation_no_newline (limit : Nat) :
    ∀ c ∈ canonicalInvocation nTargetName limit, ¬ c = '\n' := by
  intro c hc
  simp only [canonicalInvocation, nTargetName, List.mem_cons, List.cons_append,
    List.nil_append, List.mem_append, List.not_mem_nil, or_false] at hc
  rcases hc with rfl | rfl | rfl | rfl | rfl | rfl | rfl | rfl | rfl | rfl | rfl |
    rfl | rfl | rfl | rfl | rfl | rfl | rfl | rfl | rfl | rfl | rfl | rfl | rfl |
    rfl | hm | rfl | rfl
  all_goals try decide
  exact digit_ne_newline (natToStr_digits limit c hm)

theorem findMatchesF_nil (name : List Char) (fuel pos : Nat) :
    findMatchesF name fuel [] pos = [] := by
  cases fuel <;> rfl

theorem findMatchesF_single (name s m : List Char) (fuel pos : Nat)
    (hm : matchTemplateAt name s = some (m, []))
    (hf : 0 < fuel) :
    findMatchesF name fuel s pos = [(pos, m)] := by
  cases fuel with
  | zero => omega
  | succ f =>
    simp only [findMatchesF, hm]
    rw [findMatchesF_nil]

theorem matchTargetAt_not_brace (tgt : List Char) (c : Char) (t : List Char)
    (h : ¬ c = '{') : matchTargetAt tgt (c :: t) = false := by
  rw [matchTargetAt.eq_def]
  split
  · next heq =>
    simp at heq
    exact absurd heq.1 h
  · rfl

theorem hasTargetScan_no_brace (tgt : List Char) :
    ∀ s : List Char, (∀ c ∈ s, ¬ c = '{') → hasTargetScan tgt s = false := by
  intro s
  induction s with
  | nil => intro _; rfl
  | cons c t ih =>
    intro h
    rw [hasTargetScan, matchTargetAt_not_brace tgt c t (h c (by simp)),
      ih (fun x hx => h x (by simp [hx]))]
    rfl

theorem hasTargetScan_doubleOpen (tgt : List Char) (rest : List Char)
    (hrest : ∀ c ∈ rest, ¬ c = '{')
    (hfail : matchTargetAt tgt ('{' :: '{' :: rest) = false)
    (hfail2 : matchTargetAt tgt ('{' :: rest) = false) :
    hasTargetScan tgt ('{' :: '{' :: rest) = false := by
  rw [hasTargetScan, hfail, hasTargetScan, hfail2,
    hasTargetScan_no_brace tgt rest hrest]
  rfl

theorem digit_ne_ws {c : Char} (h : isDigitPy c = true) :
    (¬ c = ' ') ∧ (¬ c = '\t') ∧ (¬ c = '\n') ∧ (¬ c = '\r') ∧
      (¬ c = '\x0b') ∧ (¬ c = '\x0c') := by
  have h48 := digit_bounds h
  refine ⟨char_ne_of_toNat ?_, char_ne_of_toNat ?_, char_ne_of_toNat ?_,
    char_ne_of_toNat ?_, char_ne_of_toNat ?_, char_ne_of_toNat ?_⟩
  · have : (' ' : Char).toNat = 32 := rfl
    omega
  · have : ('\t' : Char).toNat = 9 := rfl
    omega
  · have : ('\n' : Char).toNat = 10 := rfl
    omega
  · have : ('\r' : Char).toNat = 13 := rfl
    omega
  · have : ('\x0b' : Char).toNat = 11 := rfl
    omega
  · have : ('\x0c' : Char).toNat = 12 := rfl
    omega

/-- `"{{CatDiffuse|" ++ ds ++ "}}"` -/
def txNum (ds : List Char) : List Char :=
  '{' :: '{' :: (nCatDiffuse ++ '|' :: (ds ++ ['}', '}']))

/-- C3 (amended): for a single-argument invocation whose tail is a digit
string, the extraction reads exactly that numeral, and the written limit is
the override when it is nonzero and the default otherwise (a zero override
is discarded by the falsy test); overrides accompanied by further
arguments, or a `limit=` keyword not in first position, are not found by
the two patterns. -/
theorem limit_override_rule (ds : List Char) (d : Nat)
    (hne : ds ≠ []) (hds : ∀ c ∈ ds, isDigitPy c = true) :
    extract_limit_from_template (txNum ds) nCatDiffuse = some (digitsVal ds) ∧
      replace_templates (txNum ds) [nCatDiffuse] nTargetName d =
        (canonicalInvocation nTargetName
            (if digitsVal ds = 0 then d else digitsVal ds),
          true,
          actionReplaced nCatDiffuse nTargetName
            (if digitsVal ds = 0 then d else digitsVal ds) 1) := by
  obtain ⟨d0, ds', rfl⟩ := List.exists_cons_of_ne_nil hne
  have hd0 : isDigitPy d0 = true := hds d0 (by simp)
  have hds' : ∀ c ∈ ds', isDigitPy c = true := fun c hc => hds c (by simp [hc])
  have hsp : isSpacePy d0 = false := digit_not_space hd0
  have hargs := takeWhile_append_stop (fun c => !decide (c = '}')) (d0 :: ds') '}' ['}']
    (fun x hx => by simp [digit_ne_rbrace (hds x hx)]) (by decide)
  have hargs1 : (d0 :: (ds' ++ ['}', '}'])).takeWhile (fun c => !decide (c = '}')) =
      d0 :: ds' := by simpa using hargs.1
  have hargs2 : (d0 :: (ds' ++ ['}', '}'])).dropWhile (fun c => !decide (c = '}')) =
      ['}', '}'] := by simpa using hargs.2
  have hdig := takeWhile_append_stop isDigitPy (d0 :: ds') '}' ['}']
    (fun x hx => hds x hx) (by decide)
  have hdig1 : (d0 :: (ds' ++ ['}', '}'])).takeWhile isDigitPy = d0 :: ds' := by
    simpa using hdig.1
  have hdig2 : (d0 :: (ds' ++ ['}', '}'])).dropWhile isDigitPy = ['}', '}'] := by
    simpa using hdig.2
  have hmatch : matchTemplateAt nCatDiffuse (txNum (d0 :: ds')) =
      some (txNum (d0 :: ds'), []) := by
    simp [txNum, matchTemplateAt, nCatDiffuse, stripPrefixCI, isSpacePy,
      List.takeWhile_cons, List.dropWhile_cons, hargs1, hargs2, hsp]
  have hrest : ∀ c ∈ nCatDiffuse ++ '|' :: ((d0 :: ds') ++ ['}', '}']),
      ¬ c = '{' := by
    intro c hc
    simp only [nCatDiffuse, List.mem_cons, List.cons_append, List.nil_append,
      List.mem_append, List.not_mem_nil, or_false] at hc
    rcases hc with rfl | rfl | rfl | rfl | rfl | rfl | rfl | rfl | rfl | rfl |
      rfl | rfl | hm | rfl | rfl
    all_goals try decide
    · exact digit_ne_lbrace hd0
    · exact digit_ne_lbrace (hds' _ hm)
  have hDC : (lowerChar 'D' = lowerChar 'C') = False := eq_false (by decide)
  have hfail : matchTargetAt nTargetName
      ('{' :: '{' :: (nCatDiffuse ++ '|' :: ((d0 :: ds') ++ ['}', '}']))) =
        false := by
    simp [matchTargetAt, nCatDiffuse, nTargetName, stripPrefixCI, isSpacePy, hDC]
  have hfail2 : matchTargetAt nTargetName
      ('{' :: (nCatDiffuse ++ '|' :: ((d0 :: ds') ++ ['}', '}']))) = false := by
    simp [matchTargetAt, nCatDiffuse]
  have htgt : has_target_template (txNum (d0 :: ds')) nTargetName = false := by
    rw [txNum, has_target_template]
    exact hasTargetScan_doubleOpen nTargetName _ hrest hfail hfail2
  have hfound : sourceFound (txNum (d0 :: ds')) [nCatDiffuse] =
      [⟨nCatDiffuse, 0, txNum (d0 :: ds')⟩] := by
    rw [sourceFound, List.map_cons, List.map_nil,
      findMatchesF_single nCatDiffuse _ _ _ 0 hmatch (by omega)]
    rfl
  have hsort : sortByStart (sourceFound (txNum (d0 :: ds')) [nCatDiffuse]) =
      [⟨nCatDiffuse, 0, txNum (d0 :: ds')⟩] := by
    rw [hfound]
    rfl
  have hpat1 : pat1At nCatDiffuse (txNum (d0 :: ds')) =
      some (digitsVal (d0 :: ds')) := by
    obtain ⟨w1, w2, w3, w4, w5, w6⟩ := digit_ne_ws hd0
    simp [txNum, pat1At, nCatDiffuse, stripPrefixCI, isSpacePy,
      List.takeWhile_cons, List.dropWhile_cons, hdig1, hdig2,
      w1, w2, w3, w4, w5, w6]
  have hex : extract_limit_from_template (txNum (d0 :: ds')) nCatDiffuse =
      some (digitsVal (d0 :: ds')) := by
    rw [extract_limit_from_template]
    have hs1 : searchPat1 nCatDiffuse (txNum (d0 :: ds')) =
        some (digitsVal (d0 :: ds')) := by
      rw [txNum] at hpat1 ⊢
      rw [searchPat1, hpat1]
    rw [hs1]
  have hlim : appliedLimit ⟨nCatDiffuse, 0, txNum (d0 :: ds')⟩ d =
      (if digitsVal (d0 :: ds') = 0 then d else digitsVal (d0 :: ds')) := by
    rw [appliedLimit]
    rw [show (SrcMatch.mk nCatDiffuse 0 (txNum (d0 :: ds'))).matched =
      txNum (d0 :: ds') from rfl]
    rw [show (SrcMatch.mk nCatDiffuse 0 (txNum (d0 :: ds'))).source =
      nCatDiffuse from rfl]
    rw [hex]
  refine ⟨hex, ?_⟩
  have happ := replace_first_branch_eq (txNum (d0 :: ds')) [nCatDiffuse]
    nTargetName d ⟨nCatDiffuse, 0, txNum (d0 :: ds')⟩ [] hsort htgt
    (by simp [txNum]) (by simp [mEnd]) rfl
  rw [happ, hfound, hlim]
  have hseg : segsFrom (txNum (d0 :: ds'))
      (mEnd ⟨nCatDiffuse, 0, txNum (d0 :: ds')⟩) [] = [] := by
    rw [segsFrom]
    exact List.drop_eq_nil_of_le (by simp [mEnd])
  rw [hseg]
  rw [show (SrcMatch.mk nCatDiffuse 0 (txNum (d0 :: ds'))).start = 0 from rfl]
  rw [show (SrcMatch.mk nCatDiffuse 0 (txNum (d0 :: ds'))).source =
    nCatDiffuse from rfl]
  rw [List.take_zero, List.nil_append, List.append_nil]
  rw [collapseNl_id_of_no_newline _ (canonicalInvocation_no_newline _)]
  rfl

/-- C3 amended witness: override `150` is extracted and written. -/
theorem limit_override_rule_witness :
    (['1', '5', '0'] ≠ ([] : List Char)) ∧
      (∀ c ∈ ['1', '5', '0'], isDigitPy c = true) ∧
      (extract_limit_from_template (txNum ['1', '5', '0']) nCatDiffuse =
          some (digitsVal ['1', '5', '0']) ∧
        replace_templates (txNum ['1', '5', '0']) [nCatDiffuse] nTargetName 200 =
          (canonicalInvocation nTargetName
              (if digitsVal ['1', '5', '0'] = 0 then 200 else digitsVal ['1', '5', '0']),
            true,
            actionReplaced nCatDiffuse nTargetName
              (if digitsVal ['1', '5', '0'] = 0 then 200 else digitsVal ['1', '5', '0'])
              1)) :=
  ⟨by decide, by decide,
    limit_override_rule ['1', '5', '0'] 200 (by decide) (by decide)⟩
